import Mathlib

/-!
Shallow embedding of the chibild linker core (src/chibild.h, src/elf.h) and
verification of the specification's claims about it.  The repository ships
only the two headers; where a claim depends on behaviour implemented in a
`.cc` translation unit that is not part of the source tree, the
corresponding definition is modelled from the specification and marked as
such in its doc comment.
-/

namespace Chibild

/-! ## Interner (src/chibild.h lines 93-114) -/

/-- A borrowed byte range, as llvm::StringRef: an address into some backing
buffer plus a length.  Addresses are modelled as natural numbers. -/
structure StringRef where
  ptr : Nat
  len : Nat
deriving DecidableEq, Repr

/-- From src/chibild.h lines 107-109: `InternedString` holds a `const char *`
data pointer and a `uint32_t` size. -/
structure InternedString where
  data_ : Nat
  size_ : Nat
deriving DecidableEq, Repr

/-- From src/chibild.h lines 98-99: the `(const char *, size_t)` constructor
stores the `size_t` length into the 32-bit `size_` field, truncating
modulo 2^32, and stores the pointer unchanged. -/
def InternedString.ofPtrLen (d : Nat) (s : Nat) : InternedString :=
  ⟨d, s % 2 ^ 32⟩

/-- From src/chibild.h lines 112-114: `intern` wraps the input `StringRef`
in an `InternedString` without copying the bytes; the `InternedString`
constructor taking a `StringRef` (declared line 101) forwards the data
pointer and length to the field initializers of lines 98-99. -/
def intern (s : StringRef) : InternedString :=
  InternedString.ofPtrLen s.ptr s.len

/-- The byte content a `StringRef` designates, given the memory it points
into.  Used only to state that interning ignores content. -/
def contentOf (mem : Nat → UInt8) (s : StringRef) : List UInt8 :=
  (List.range s.len).map fun i => mem (s.ptr + i)

/-! ## Relocation (src/chibild.h lines 141-161, 245; src/elf.h ElfRela) -/

/-- From src/elf.h `ElfRela`: a relocation record. -/
structure RelEntry where
  r_offset : Nat
  r_type : Nat
  r_sym : Nat
  r_addend : Int
deriving DecidableEq, Repr

/-- From src/chibild.h line 144: `virtual void relocate(uint8_t *buf) {}` —
the default `InputChunk::relocate` has an empty body, and `InputSection`
(lines 149-161) declares no override, so applying it leaves the buffer
unchanged. -/
def InputChunk.relocate (buf : List UInt8) : List UInt8 :=
  buf

/-- From src/chibild.h line 245: `void relocate(uint8_t *buf) override {}` —
`OutputSection::relocate` has an empty body, leaving the buffer unchanged. -/
def OutputSection.relocate (buf : List UInt8) : List UInt8 :=
  buf

/-- Modelled from the spec (§4.6), for comparison with the code: the claimed
`relocate` computes, for each relocation entry, `addend + resolved-symbol-value`
and patches the byte at the entry's location with it.  This behaviour is not
implemented anywhere in the source tree. -/
def claimedRelocate (symval : Nat → Nat) (rs : List RelEntry) (buf : List UInt8) : List UInt8 :=
  rs.foldl
    (fun b r => b.set r.r_offset (UInt8.ofNat ((r.r_addend + Int.ofNat (symval r.r_sym)).toNat)))
    buf

/-! ## Symbol resolution policy (symtab.cc is not in the source tree) -/

/-- Modelled from the spec (§4.4): the strength of a symbol candidate —
strong definition, weak definition, common, or undefined. -/
inductive Rank where
  | strong
  | weak
  | common
  | undef
deriving DecidableEq, Repr

/-- Modelled from the spec (§4.4): numeric strength, strongest highest. -/
def rankVal : Rank → Nat
  | .strong => 3
  | .weak => 2
  | .common => 1
  | .undef => 0

/-- Modelled from the spec (§4.4): a symbol candidate registered by one
object file — the registering file's identity, its link-order priority
(lower = earlier on the command line), its strength, and its value. -/
structure Cand where
  file : Nat
  priority : Nat
  rank : Rank
  value : Nat
deriving DecidableEq, Repr

/-- Result of resolving a candidate against the current occupant of a
symbol-table slot: either a winning candidate, or the fatal
duplicate-strong-definition condition naming both files. -/
inductive AddResult where
  | ok (winner : Cand)
  | dup (file1 file2 : Nat)
deriving DecidableEq, Repr

/-- Modelled from the spec (§4.2, §4.4): `SymbolTable::add` resolving a new
candidate against the slot's occupant (symtab.cc is not in the source tree).
Two strong definitions from different files are unconditionally fatal,
reported with both file identities; otherwise the higher-ranked candidate
wins; on a tie in rank the candidate earliest in input/link order is kept. -/
def resolveStep (occ cand : Cand) : AddResult :=
  if occ.rank = .strong ∧ cand.rank = .strong ∧ occ.file ≠ cand.file then
    .dup occ.file cand.file
  else if rankVal occ.rank < rankVal cand.rank then .ok cand
  else if rankVal cand.rank < rankVal occ.rank then .ok occ
  else if occ.priority ≤ cand.priority then .ok occ
  else .ok cand

/-! ## Chunk layout (writer.cc / output_sections.cc are not in the source tree) -/

/-- Modelled from the spec (§4.7): padding needed to raise `v` to the next
multiple of the alignment `a`. -/
def padTo (v a : Nat) : Nat :=
  (a - v % a) % a

/-- Modelled from the spec (§4.7, §5): the layout pass walks the chunks in
placement order, assigning each an aligned file offset immediately after the
previous chunk's end (writer.cc is not in the source tree).  `sz` and `al`
read a chunk's size and alignment. -/
def assignOffsets (sz al : α → Nat) : Nat → List α → List (Nat × α)
  | _, [] => []
  | off, c :: cs =>
    let o := off + padTo off (al c)
    (o, c) :: assignOffsets sz al (o + sz c) cs

/-- Modelled from the spec (§3 invariant 3, §4.8): the size of the output
image is the running end of the layout — the last chunk's offset plus its
size (the starting offset if there is no chunk). -/
def layoutEnd (sz al : α → Nat) : Nat → List α → Nat
  | off, [] => off
  | off, c :: cs => layoutEnd sz al (off + padTo off (al c) + sz c) cs

/-! ## Object files, liveness and the output pipeline
(input_files.cc, writer.cc, output_file.cc, main.cc are not in the source
tree; the models below follow the header's class layout and the spec). -/

/-- From src/chibild.h lines 149-161: an input section's contribution,
reduced to its raw bytes and its alignment requirement. -/
structure SectM where
  bytes : List UInt8
  align : Nat
deriving DecidableEq, Repr

/-- Modelled from the spec (§4.3): one defined-symbol record of an object
file — the name it defines, its strength and its value. -/
structure SymDef where
  name : Nat
  rank : Rank
  value : Nat
deriving DecidableEq, Repr

/-- From src/chibild.h lines 272-294: an ObjectFile with its identity, its
link-order priority, its sections, its defined and referenced symbols
(register_defined_symbols / register_undefined_symbols data), and its
outgoing `liveness_edges`. -/
structure ObjFileM where
  id : Nat
  priority : Nat
  secs : List SectM
  defSyms : List SymDef
  refSyms : List Nat
  edges : List Nat
deriving DecidableEq, Repr

/-- Modelled from the spec (§4.5): the liveness edges leaving file `n`. -/
def edgesOf (files : List ObjFileM) (n : Nat) : List Nat :=
  (files.filter fun f => f.id == n).flatMap ObjFileM.edges

/-- Modelled from the spec (§4.5): one breadth-first expansion step of the
reachability closure. -/
def reachStep (files : List ObjFileM) (s : List Nat) : List Nat :=
  (s ++ s.flatMap (edgesOf files)).dedup

/-- Modelled from the spec (§4.5): iterate the expansion step. -/
def reachableAux (files : List ObjFileM) : Nat → List Nat → List Nat
  | 0, s => s
  | k + 1, s => reachableAux files k (reachStep files s)

/-- Modelled from the spec (§4.5): the file identities reachable from the
liveness roots; iterating once per file suffices for the closure, and the
claims only consume the resulting `is_alive` set. -/
def reachable (files : List ObjFileM) (roots : List Nat) : List Nat :=
  reachableAux files files.length roots

/-- Modelled from the spec (§4.5): the files the GC pass marks `is_alive`. -/
def liveFiles (files : List ObjFileM) (roots : List Nat) : List ObjFileM :=
  files.filter fun g => decide (g.id ∈ reachable files roots)

/-- Modelled from the spec (§4.5, §4.7): the surviving input sections in
link order, each tagged with its owning file's identity. -/
def liveSections (files : List ObjFileM) (roots : List Nat) : List (Nat × SectM) :=
  (liveFiles files roots).flatMap fun g => g.secs.map fun s => (g.id, s)

/-- Modelled from the spec (§4.5): the final output symbol-table view — one
(name, owning file) entry per symbol defined by a surviving file. -/
def outputSymtab (files : List ObjFileM) (roots : List Nat) : List (Nat × Nat) :=
  (liveFiles files roots).flatMap fun g => g.defSyms.map fun d => (d.name, g.id)

/-- Modelled from the spec (§4.8): the bytes the surviving sections
contribute to the image, in placement order. -/
def gcImage (files : List ObjFileM) (roots : List Nat) : List UInt8 :=
  (liveSections files roots).flatMap fun p => p.2.bytes

/-! ## Concurrent symbol registration (symtab.cc is not in the source tree) -/

/-- Modelled from the spec (§4.2): one `SymbolTable::add` call — a name
together with the candidate the calling file registers for it. -/
structure Reg where
  name : Nat
  cand : Cand
deriving DecidableEq, Repr

/-- Modelled from the spec (§4.2): the candidates registered for a name, in
arrival order. -/
def candsFor (regs : List Reg) (nm : Nat) : List Cand :=
  (regs.filter fun r => r.name == nm).map Reg.cand

/-- Modelled from the spec (§4.4): candidate `c` displaces occupant `a` iff
it strictly outranks it, or ties in rank but comes earlier in input/link
order. -/
def beats (c a : Cand) : Prop :=
  rankVal a.rank < rankVal c.rank
    ∨ (rankVal a.rank = rankVal c.rank ∧ c.priority < a.priority)

instance (c a : Cand) : Decidable (beats c a) := by
  unfold beats; exact inferInstance

/-- Modelled from the spec (§4.4): the occupant after resolving challenger
`c` against occupant `a`. -/
def pick (a c : Cand) : Cand :=
  if beats c a then c else a

/-- Modelled from the spec (§4.2): processing one arriving registration
against the slot's current state (empty or occupied). -/
def pickStep (acc : Option Cand) (c : Cand) : Option Cand :=
  some (acc.elim c fun a => pick a c)

/-- Modelled from the spec (§4.2, §4.4): the slot's final occupant after all
registrations for the name arrive in the given order. -/
def winnerOf (l : List Cand) : Option Cand :=
  l.foldl pickStep none

/-- Modelled from the spec (§4.4): the fatal duplicate-strong condition for
one name — two strong definitions from different files among the
registered candidates. -/
def hasDupStrong (l : List Cand) : Prop :=
  ∃ a ∈ l, ∃ b ∈ l, a.rank = .strong ∧ b.rank = .strong ∧ a.file ≠ b.file

instance (l : List Cand) : Decidable (hasDupStrong l) := by
  unfold hasDupStrong; exact inferInstance

/-- Modelled from the spec (§2, §4.8): the output image as a pure function
of the fixed input file list and the resolved winner of each name — the
section bytes in link order followed by one byte per referenced name
encoding the winning symbol's value. -/
def outputImage (files : List ObjFileM) (winners : Nat → Option Cand) : List UInt8 :=
  (files.flatMap fun f => f.secs.flatMap SectM.bytes)
    ++ ((files.flatMap ObjFileM.refSyms).map fun nm =>
          match winners nm with
          | none => 0
          | some c => UInt8.ofNat c.value)

/-! ## End-to-end run and error convergence
(main.cc / output_file.cc are not in the source tree). -/

/-- From src/chibild.h lines 49-52: `error` prints the message and calls
`exit(1)` — the process terminates with exit code 1. -/
def errorExitCode : Nat := 1

/-- Modelled from the spec (§4.3): collect every defined-symbol
registration of every file, in link order. -/
def collectRegs (files : List ObjFileM) : List Reg :=
  files.flatMap fun f =>
    f.defSyms.map fun d => ⟨d.name, ⟨f.id, f.priority, d.rank, d.value⟩⟩

/-- Modelled from the spec (§4.3): whether some registration defines the
name (with any strength stronger than undefined). -/
def hasDefinition (regs : List Reg) (nm : Nat) : Bool :=
  regs.any fun r => r.name == nm && !(r.cand.rank == Rank.undef)

/-- Modelled from the spec (§4.4): the names with a fatal duplicate strong
definition. -/
def dupNames (regs : List Reg) : List Nat :=
  (regs.map Reg.name).filter fun nm => decide (hasDupStrong (candsFor regs nm))

/-- Modelled from the spec (§4.3): the names still undefined at the resolve
fixed point. -/
def undefNames (files : List ObjFileM) (regs : List Reg) : List Nat :=
  (files.flatMap ObjFileM.refSyms).filter fun nm => !hasDefinition regs nm

/-- Modelled from the spec (§2, §7): the whole link as a fallible
transformation — every fatal condition (duplicate strong definition,
undefined symbol after the fixed point) short-circuits to an error, and
only a fully successful run produces an image. -/
def linkRun (files : List ObjFileM) (roots : List Nat) : Except String (List UInt8) :=
  let regs := collectRegs files
  if dupNames regs = [] then
    if undefNames files regs = [] then .ok (gcImage files roots)
    else .error "undefined symbol"
  else .error "duplicate symbol"

/-- Modelled from the spec (§4.8, §6, §7): the driver commits the completed
output buffer to the destination path only after the entire image is built;
any fatal condition reaches `error` (exit code 1) before the commit, so no
file is left at the destination.  Returns (exit code, file at destination
path). -/
def runAndExit (files : List ObjFileM) (roots : List Nat) : Nat × Option (List UInt8) :=
  match linkRun files roots with
  | .error _ => (errorExitCode, none)
  | .ok img => (0, some img)

/-! ## OutputSection size bookkeeping (src/chibild.h lines 187-189, 236-260) -/

/-- From src/chibild.h lines 187-189 and 236-260: the mutable state of an
`OutputSection` — the inherited `int64_t offset = -1` and `int64_t size = -1`
plus the accumulated member input-section sizes. -/
structure OutputSectionState where
  offset : Int
  size : Int
  members : List Nat
deriving DecidableEq, Repr

/-- From src/chibild.h line 238: a freshly constructed `OutputSection`
carries the `OutputChunk` defaults `offset = -1`, `size = -1`. -/
def OutputSection.init : OutputSectionState :=
  ⟨-1, -1, []⟩

/-- From src/chibild.h lines 247-250: `get_size` asserts `size >= 0` and
returns `size`; `none` models the assertion firing. -/
def OutputSection.get_size (s : OutputSectionState) : Option Int :=
  if s.size < 0 then none else some s.size

/-- Modelled from the spec (§4.7): `OutputSection::set_offset`
(output_sections.cc is not in the source tree) assigns the file offset and
computes the total size as the sum of the member sizes — a natural number,
hence non-negative. -/
def OutputSection.set_offset (s : OutputSectionState) (off : Nat) : OutputSectionState :=
  ⟨Int.ofNat off, Int.ofNat (s.members.foldl (· + ·) 0), s.members⟩

theorem assignOffsets_map_snd (sz al : α → Nat) :
    ∀ (off : Nat) (cs : List α), (assignOffsets sz al off cs).map Prod.snd = cs := by
  intro off cs
  induction cs generalizing off with
  | nil => rfl
  | cons c cs ih => simp [assignOffsets, ih]

theorem assignOffsets_chain_le (sz al : α → Nat) :
    ∀ (off : Nat) (cs : List α),
      List.Chain' (fun p q => p.1 + sz p.2 ≤ q.1) (assignOffsets sz al off cs) := by
  intro off cs
  induction cs generalizing off with
  | nil => exact List.chain'_nil
  | cons c cs ih =>
    cases cs with
    | nil => simp [assignOffsets]
    | cons c' cs' =>
      refine List.Chain'.cons ?_ (ih _)
      simp [assignOffsets]

theorem assignOffsets_getLast (sz al : α → Nat) :
    ∀ (off : Nat) (cs : List α) (p : Nat × α),
      (assignOffsets sz al off cs).getLast? = some p →
      layoutEnd sz al off cs = p.1 + sz p.2 := by
  intro off cs
  induction cs generalizing off with
  | nil => intro p hp; simp [assignOffsets] at hp
  | cons c cs ih =>
    intro p hp
    cases cs with
    | nil =>
      simp [assignOffsets] at hp
      simp [layoutEnd, ← hp]
    | cons c' cs' =>
      rw [show assignOffsets sz al off (c :: c' :: cs')
            = (off + padTo off (al c), c)
              :: (off + padTo off (al c) + sz c
                    + padTo (off + padTo off (al c) + sz c) (al c'), c')
              :: assignOffsets sz al
                  (off + padTo off (al c) + sz c
                    + padTo (off + padTo off (al c) + sz c) (al c') + sz c') cs' from rfl,
          List.getLast?_cons_cons] at hp
      exact ih _ p hp

theorem assignOffsets_chain_lt (sz al : α → Nat) :
    ∀ (off : Nat) (cs : List α), (∀ c ∈ cs, 0 < sz c) →
      List.Chain' (fun p q => p.1 < q.1) (assignOffsets sz al off cs) := by
  intro off cs
  induction cs generalizing off with
  | nil => intro _; exact List.chain'_nil
  | cons c cs ih =>
    intro hpos
    cases cs with
    | nil => simp [assignOffsets]
    | cons c' cs' =>
      refine List.Chain'.cons ?_ (ih _ fun d hd => hpos d (List.mem_cons_of_mem _ hd))
      have hc : 0 < sz c := hpos c (List.mem_cons_self _ _)
      simp [assignOffsets]
      omega

end Chibild

/-! ## Theorems for the interner claims -/

namespace Chibild

/-- C5: `intern` is pure and total, returns a handle that references the
input bytes without copying them (its data pointer is the input's pointer),
handles compare equal only if they reference the same backing storage, and
interning byte-identical content from two different buffers yields handles
that do not compare equal. -/
theorem intern_identity_semantics (mem : Nat → UInt8) (s1 s2 : StringRef)
    (hptr : s1.ptr ≠ s2.ptr) (hcontent : contentOf mem s1 = contentOf mem s2) :
    (∀ s : StringRef, (intern s).data_ = s.ptr)
    ∧ (∀ t1 t2 : StringRef, intern t1 = intern t2 → t1.ptr = t2.ptr)
    ∧ intern s1 ≠ intern s2 := by
  refine ⟨fun s => rfl, fun t1 t2 h => ?_, fun h => ?_⟩
  · have := congrArg InternedString.data_ h
    simpa [intern, InternedString.ofPtrLen] using this
  · have := congrArg InternedString.data_ h
    simp [intern, InternedString.ofPtrLen] at this
    exact hptr this

/-- Witness for C5 at a concrete input: two ranges at different addresses
whose contents under a constant memory agree byte for byte. -/
theorem intern_identity_semantics_witness :
    intern ⟨0, 3⟩ ≠ intern ⟨100, 3⟩ :=
  (intern_identity_semantics (fun _ => (65 : UInt8)) ⟨0, 3⟩ ⟨100, 3⟩
    (by decide) (by decide)).2.2

/-- C9: the handle returned by `intern` reports `size() = input length mod 2^32`
and `data() =` the input's pointer; consequently, for any input of length at
least `2^32` the reported size differs from the input length (silent
truncation by the 32-bit `size_` field). -/
theorem intern_size_truncation (s : StringRef) (h : 2 ^ 32 ≤ s.len) :
    (intern s).size_ = s.len % 2 ^ 32
    ∧ (intern s).data_ = s.ptr
    ∧ (intern s).size_ ≠ s.len := by
  refine ⟨rfl, rfl, ?_⟩
  intro hEq
  have hlt : s.len % 2 ^ 32 < 2 ^ 32 := Nat.mod_lt _ (by norm_num)
  simp only [intern, InternedString.ofPtrLen] at hEq
  omega

/-- Witness for C9 at a concrete input of length exactly `2^32`. -/
theorem intern_size_truncation_witness :
    (intern ⟨0, 2 ^ 32⟩).size_ ≠ 2 ^ 32 :=
  (intern_size_truncation ⟨0, 2 ^ 32⟩ (Nat.le_refl _)).2.2

/-! ## Theorems for the relocation claims -/

/-- C3 counterexample: on a concrete four-byte buffer carrying one relocation
entry (location 0, addend 5) with the referenced symbol resolved to 7, the
code's `relocate` (an empty virtual body) does not patch the byte at the
entry's location with `addend + resolved-symbol-value = 12`: it returns the
buffer unchanged, which differs from the claimed patched buffer. -/
theorem relocate_does_not_patch :
    InputChunk.relocate [0, 0, 0, 0]
      ≠ claimedRelocate (fun _ => 7) [⟨0, 1, 0, 5⟩] [0, 0, 0, 0] := by
  decide

/-- C3 (amended): `relocate` leaves the buffer unchanged — the default
`InputChunk::relocate` body is empty, `InputSection` does not override it,
and no relocation entry is stored or applied in this version of the code. -/
theorem relocate_is_noop (buf : List UInt8) :
    InputChunk.relocate buf = buf := rfl

/-- C8: `relocate` is idempotent — running it a second time on the buffer
(with symbol values unchanged, which the signature cannot consult anyway)
yields a buffer byte-identical to running it once.  This holds trivially
because both `relocate` bodies in the source are empty. -/
theorem relocate_idempotent (buf : List UInt8) :
    OutputSection.relocate (OutputSection.relocate buf) = OutputSection.relocate buf
    ∧ InputChunk.relocate (InputChunk.relocate buf) = InputChunk.relocate buf :=
  ⟨rfl, rfl⟩

/-! ## Theorems for the resolution-policy claim -/

/-- C1: symbol resolution ranks candidates
strong-definition > weak-definition > common > undefined; on a tie in rank
the earliest-registered candidate by input/link order is kept unless
outranked; two strong definitions from different files are unconditionally
fatal, reported naming both files; and in particular a symbol weak in file A
and strong in a later file B resolves to B's definition. -/
theorem resolution_policy (occ cand : Cand) :
    (occ.rank = .strong → cand.rank = .strong → occ.file ≠ cand.file →
        resolveStep occ cand = .dup occ.file cand.file)
    ∧ (rankVal occ.rank < rankVal cand.rank → resolveStep occ cand = .ok cand)
    ∧ (rankVal cand.rank < rankVal occ.rank → resolveStep occ cand = .ok occ)
    ∧ (occ.rank = cand.rank → ¬(occ.rank = Rank.strong ∧ occ.file ≠ cand.file) →
        resolveStep occ cand = .ok (if occ.priority ≤ cand.priority then occ else cand))
    ∧ (occ.rank = .weak → cand.rank = .strong → resolveStep occ cand = .ok cand) := by
  refine ⟨fun h1 h2 h3 => ?_, fun h => ?_, fun h => ?_, fun ht hns => ?_, fun hw hs => ?_⟩
  · simp [resolveStep, h1, h2, h3]
  · cases hoc : occ.rank <;> cases hca : cand.rank <;>
      simp_all [resolveStep, rankVal, apply_ite]
  · cases hoc : occ.rank <;> cases hca : cand.rank <;>
      simp_all [resolveStep, rankVal, apply_ite]
  · cases hoc : occ.rank <;> cases hca : cand.rank <;>
      simp_all [resolveStep, rankVal, apply_ite]
  · simp [resolveStep, hw, hs, rankVal]

/-- Witness for C1 at concrete inputs: a weak candidate from file 0
(priority 0) loses to a strong candidate from the later file 1, and two
strong candidates from files 0 and 1 are a fatal duplicate naming both. -/
theorem resolution_policy_witness :
    resolveStep ⟨0, 0, .weak, 0⟩ ⟨1, 1, .strong, 7⟩ = .ok ⟨1, 1, .strong, 7⟩
    ∧ resolveStep ⟨0, 0, .strong, 3⟩ ⟨1, 1, .strong, 7⟩ = .dup 0 1 :=
  ⟨(resolution_policy ⟨0, 0, .weak, 0⟩ ⟨1, 1, .strong, 7⟩).2.2.2.2 rfl rfl,
   (resolution_policy ⟨0, 0, .strong, 3⟩ ⟨1, 1, .strong, 7⟩).1 rfl rfl (by decide)⟩

/-! ## Theorems for the layout claim -/

/-- C2: the layout pass assigns each chunk exactly one file offset (the
offset list pairs one offset with each chunk, in placement order); for
consecutive chunks, `offset(i) + size(i) ≤ offset(i+1)` (ranges are
non-overlapping, and strictly increasing whenever chunk sizes are positive);
and the final image length equals the last chunk's offset plus its size. -/
theorem chunk_layout_invariants (sz al : α → Nat) (cs : List α) :
    ((assignOffsets sz al 0 cs).map Prod.snd = cs)
    ∧ List.Chain' (fun p q => p.1 + sz p.2 ≤ q.1) (assignOffsets sz al 0 cs)
    ∧ (∀ p, (assignOffsets sz al 0 cs).getLast? = some p →
        layoutEnd sz al 0 cs = p.1 + sz p.2)
    ∧ ((∀ c ∈ cs, 0 < sz c) →
        List.Chain' (fun p q => p.1 < q.1) (assignOffsets sz al 0 cs)) :=
  ⟨assignOffsets_map_snd sz al 0 cs, assignOffsets_chain_le sz al 0 cs,
   fun p hp => assignOffsets_getLast sz al 0 cs p hp,
   fun hpos => assignOffsets_chain_lt sz al 0 cs hpos⟩

/-- Witness for C2 on a concrete chunk list (size, alignment pairs): the
layout `[(65,1), (100,8), (3,4)]` places chunks at offsets 0, 72, 172 with
non-overlapping strictly increasing ranges and total image size 175. -/
theorem chunk_layout_invariants_witness :
    List.Chain' (fun p q => p.1 + p.2.1 ≤ q.1)
      (assignOffsets Prod.fst Prod.snd 0 [(65, 1), (100, 8), (3, 4)])
    ∧ layoutEnd Prod.fst Prod.snd 0 [(65, 1), (100, 8), (3, 4)] = 175
    ∧ List.Chain' (fun p q => p.1 < q.1)
      (assignOffsets Prod.fst Prod.snd 0 [(65, 1), (100, 8), (3, 4)]) := by
  have h := chunk_layout_invariants (α := Nat × Nat) Prod.fst Prod.snd
    [(65, 1), (100, 8), (3, 4)]
  exact ⟨h.2.1, by simpa using h.2.2.1 (172, (3, 4)) (by decide),
    h.2.2.2 (by decide)⟩

/-! ## Theorems for the OutputSection get_size claim -/

/-- C10: `OutputSection::get_size` asserts `size >= 0` while `size` is
initialized to -1, so calling it on a freshly constructed section makes the
assertion fire (`none`); once layout has run `set_offset`, which computes
the size as a sum of member sizes, the assertion can no longer fire. -/
theorem get_size_assert_safety (s : OutputSectionState) (off : Nat) :
    OutputSection.get_size OutputSection.init = none
    ∧ OutputSection.get_size (OutputSection.set_offset s off)
        = some (Int.ofNat (s.members.foldl (· + ·) 0)) := by
  refine ⟨rfl, ?_⟩
  simp only [OutputSection.get_size, OutputSection.set_offset]
  rw [if_neg (show ¬ Int.ofNat (s.members.foldl (· + ·) 0) < 0 from
    Int.not_lt.2 (Int.ofNat_nonneg _))]

/-! ## Theorems for the garbage-collection claim -/

theorem liveSections_owner_reachable (files : List ObjFileM) (roots : List Nat) :
    ∀ p ∈ liveSections files roots, p.1 ∈ reachable files roots := by
  intro p hp
  rcases List.mem_flatMap.1 hp with ⟨g, hg, hmem⟩
  rcases List.mem_map.1 hmem with ⟨s, _, heq⟩
  rcases List.mem_filter.1 hg with ⟨_, hdec⟩
  rw [← heq]
  exact of_decide_eq_true hdec

/-- C7: an ObjectFile not reachable from the liveness roots contributes
nothing to the output — no surviving section is owned by it, the layout
assigns it no offsets, deleting its contributions from the surviving-section
list is a no-op, and no symbol it defines appears in the final output
symbol-table view. -/
theorem gc_excludes_unreachable (files : List ObjFileM) (roots : List Nat)
    (fid : Nat) (hf : fid ∉ reachable files roots) :
    (∀ p ∈ liveSections files roots, p.1 ≠ fid)
    ∧ (∀ e ∈ assignOffsets (fun p => p.2.bytes.length) (fun p => p.2.align) 0
          (liveSections files roots), e.2.1 ≠ fid)
    ∧ ((liveSections files roots).filter (fun p => p.1 != fid)
        = liveSections files roots)
    ∧ (∀ nm, (nm, fid) ∉ outputSymtab files roots) := by
  have howner := liveSections_owner_reachable files roots
  have ha : ∀ p ∈ liveSections files roots, p.1 ≠ fid := by
    intro p hp he
    exact hf (he ▸ howner p hp)
  refine ⟨ha, ?_, ?_, ?_⟩
  · intro e he
    apply ha
    rw [← assignOffsets_map_snd (fun p => p.2.bytes.length) (fun p => p.2.align) 0
      (liveSections files roots)]
    exact List.mem_map.2 ⟨e, he, rfl⟩
  · refine List.filter_eq_self.2 fun p hp => ?_
    simpa [bne_iff_ne] using ha p hp
  · intro nm hmem
    rcases List.mem_flatMap.1 hmem with ⟨g, hg, hmap⟩
    rcases List.mem_map.1 hmap with ⟨d, _, heq⟩
    rcases List.mem_filter.1 hg with ⟨_, hdec⟩
    have hid : g.id = fid := congrArg Prod.snd heq
    exact hf (hid ▸ of_decide_eq_true hdec)

/-- Witness for C7 on a concrete two-file link: file 1 references file 0
through a liveness edge, the root set is {1}, and file 2 is unreachable —
its section list entry is filtered out and its symbol is absent from the
output view. -/
theorem gc_excludes_unreachable_witness :
    ((liveSections
        [⟨0, 0, [⟨[1, 2], 1⟩], [⟨7, .strong, 0⟩], [], []⟩,
         ⟨1, 1, [⟨[3], 1⟩], [⟨8, .strong, 0⟩], [7], [0]⟩,
         ⟨2, 2, [⟨[9, 9], 1⟩], [⟨9, .strong, 0⟩], [], [0]⟩] [1]).filter
        (fun p => p.1 != 2)
      = liveSections
        [⟨0, 0, [⟨[1, 2], 1⟩], [⟨7, .strong, 0⟩], [], []⟩,
         ⟨1, 1, [⟨[3], 1⟩], [⟨8, .strong, 0⟩], [7], [0]⟩,
         ⟨2, 2, [⟨[9, 9], 1⟩], [⟨9, .strong, 0⟩], [], [0]⟩] [1])
    ∧ (9, 2) ∉ outputSymtab
        [⟨0, 0, [⟨[1, 2], 1⟩], [⟨7, .strong, 0⟩], [], []⟩,
         ⟨1, 1, [⟨[3], 1⟩], [⟨8, .strong, 0⟩], [7], [0]⟩,
         ⟨2, 2, [⟨[9, 9], 1⟩], [⟨9, .strong, 0⟩], [], [0]⟩] [1] :=
  have h := gc_excludes_unreachable
    [⟨0, 0, [⟨[1, 2], 1⟩], [⟨7, .strong, 0⟩], [], []⟩,
     ⟨1, 1, [⟨[3], 1⟩], [⟨8, .strong, 0⟩], [7], [0]⟩,
     ⟨2, 2, [⟨[9, 9], 1⟩], [⟨9, .strong, 0⟩], [], [0]⟩] [1] 2 (by decide)
  ⟨h.2.2.1, h.2.2.2 9⟩

/-! ## Theorems for the error-handling claim -/

/-- C6: every fatal condition converges to the single report-and-terminate
point with the non-zero exit code of `error` (src/chibild.h lines 49-52),
and on any failure no output file is left at the destination path; the
buffer is committed only when the whole image was built, in which case the
exit code is 0. -/
theorem fatal_no_partial_output (files : List ObjFileM) (roots : List Nat) :
    (∀ e, linkRun files roots = .error e →
        runAndExit files roots = (errorExitCode, none) ∧ errorExitCode ≠ 0)
    ∧ (∀ img, linkRun files roots = .ok img →
        runAndExit files roots = (0, some img))
    ∧ (dupNames (collectRegs files) ≠ [] →
        linkRun files roots = .error "duplicate symbol")
    ∧ (dupNames (collectRegs files) = [] →
        undefNames files (collectRegs files) ≠ [] →
        linkRun files roots = .error "undefined symbol") := by
  refine ⟨fun e he => ?_, fun img hok => ?_, fun hdup => ?_, fun hdup hundef => ?_⟩
  · rw [runAndExit, he]
    exact ⟨rfl, by simp [errorExitCode]⟩
  · rw [runAndExit, hok]
  · simp only [linkRun]
    rw [if_neg hdup]
  · simp only [linkRun]
    rw [if_pos hdup, if_neg hundef]

/-- Witness for C6 on a concrete failing link: two files both strongly
define name 0, the run reports the duplicate-symbol fatal error, the exit
code is 1 (non-zero) and no file is left at the destination. -/
theorem fatal_no_partial_output_witness :
    runAndExit
      [⟨0, 0, [], [⟨0, .strong, 1⟩], [], []⟩,
       ⟨1, 1, [], [⟨0, .strong, 2⟩], [], []⟩] []
      = (errorExitCode, none)
    ∧ errorExitCode ≠ 0 :=
  (fatal_no_partial_output
      [⟨0, 0, [], [⟨0, .strong, 1⟩], [], []⟩,
       ⟨1, 1, [], [⟨0, .strong, 2⟩], [], []⟩] []).1
    "duplicate symbol" (by rfl)

/-! ## Theorems for the determinism claim -/

theorem pick_comm (c₁ c₂ : Cand)
    (h : rankVal c₁.rank ≠ rankVal c₂.rank ∨ c₁.priority ≠ c₂.priority) :
    ∀ z : Option Cand,
      pickStep (pickStep z c₁) c₂ = pickStep (pickStep z c₂) c₁ := by
  intro z
  cases z with
  | none =>
    simp only [pickStep, Option.elim, pick]
    split_ifs <;> first | rfl | (exfalso; simp only [beats] at *; omega)
  | some a =>
    simp only [pickStep, Option.elim, pick]
    split_ifs <;> first | rfl | (exfalso; simp only [beats] at *; omega)

theorem winnerOf_perm (l₁ l₂ : List Cand) (hperm : l₁.Perm l₂)
    (hdist : l₁.Pairwise fun a b => a.priority ≠ b.priority) :
    winnerOf l₁ = winnerOf l₂ := by
  unfold winnerOf
  refine hperm.foldl_eq' (fun x hx y hy z => ?_) none
  by_cases hxy : x = y
  · rw [hxy]
  · have hsym : Symmetric (fun a b : Cand => a.priority ≠ b.priority) :=
      fun _ _ h => Ne.symm h
    exact pick_comm x y (Or.inr (hdist.forall hsym hx hy hxy)) z

theorem hasDupStrong_perm (l₁ l₂ : List Cand) (hperm : l₁.Perm l₂) :
    hasDupStrong l₁ ↔ hasDupStrong l₂ := by
  unfold hasDupStrong
  constructor
  · rintro ⟨a, ha, b, hb, hs⟩
    exact ⟨a, hperm.mem_iff.1 ha, b, hperm.mem_iff.1 hb, hs⟩
  · rintro ⟨a, ha, b, hb, hs⟩
    exact ⟨a, hperm.mem_iff.2 ha, b, hperm.mem_iff.2 hb, hs⟩

/-- C4: the link is deterministic under thread interleaving — if the same
multiset of symbol registrations arrives in any two orders (a permutation,
the only effect a different thread schedule can have), then for every name
the final winning symbol is identical, the fatal duplicate-strong condition
is detected identically, and the output image built from the winners over
the fixed input file list is byte-identical. -/
theorem link_determinism (files : List ObjFileM) (regs1 regs2 : List Reg)
    (hperm : regs1.Perm regs2)
    (hdist : ∀ nm, (candsFor regs1 nm).Pairwise fun a b => a.priority ≠ b.priority) :
    (∀ nm, winnerOf (candsFor regs1 nm) = winnerOf (candsFor regs2 nm))
    ∧ (∀ nm, hasDupStrong (candsFor regs1 nm) ↔ hasDupStrong (candsFor regs2 nm))
    ∧ outputImage files (fun nm => winnerOf (candsFor regs1 nm))
        = outputImage files (fun nm => winnerOf (candsFor regs2 nm)) := by
  have hpermc : ∀ nm, (candsFor regs1 nm).Perm (candsFor regs2 nm) := fun nm =>
    (hperm.filter _).map _
  have hw : ∀ nm, winnerOf (candsFor regs1 nm) = winnerOf (candsFor regs2 nm) :=
    fun nm => winnerOf_perm _ _ (hpermc nm) (hdist nm)
  refine ⟨hw, fun nm => hasDupStrong_perm _ _ (hpermc nm), ?_⟩
  rw [show (fun nm => winnerOf (candsFor regs1 nm))
        = (fun nm => winnerOf (candsFor regs2 nm)) from funext hw]

/-- Witness for C4 on a concrete interleaving: the same two registrations
for name 0 arriving in the two possible orders produce the same winner. -/
theorem link_determinism_witness :
    winnerOf (candsFor [⟨0, ⟨0, 0, .weak, 1⟩⟩, ⟨0, ⟨1, 1, .strong, 2⟩⟩] 0)
      = winnerOf (candsFor [⟨0, ⟨1, 1, .strong, 2⟩⟩, ⟨0, ⟨0, 0, .weak, 1⟩⟩] 0) :=
  (link_determinism []
      [⟨0, ⟨0, 0, .weak, 1⟩⟩, ⟨0, ⟨1, 1, .strong, 2⟩⟩]
      [⟨0, ⟨1, 1, .strong, 2⟩⟩, ⟨0, ⟨0, 0, .weak, 1⟩⟩]
      (by decide)
      (by
        intro nm
        cases nm with
        | zero => decide
        | succ k =>
          have h0 : candsFor
              [⟨0, ⟨0, 0, .weak, 1⟩⟩, ⟨0, ⟨1, 1, .strong, 2⟩⟩] (k + 1) = [] := rfl
          rw [h0]
          exact List.Pairwise.nil)).1 0

end Chibild
